import Mathlib

/-!
Verification development for the ButyrinIA/system blog service.

The development shallowly embeds the parts of the Go source that the
specification's claims are about:

* the in-memory storage backend (`internal/storage/memory`, file
  `src/unnamed/part_001`): `ListPosts`, `GetComments`, `GetPost`,
  `CreateComment`;
* the PostgreSQL storage backend (`internal/storage/postgres/postrges.go`):
  `ListPosts` and `GetComments`, both as a pure model of the declared SQL
  semantics and as a control-flow model with injectable database outcomes;
* the GraphQL resolver (`internal/graphql/resolver.go`): the
  `CreateComment` mutation, the notification fan-out performed inside it,
  and the `CommentAdded` subscription lifecycle (register / watcher
  deregistration).

Modelling conventions:

* Creation timestamps (`time.Time`) are modelled as natural numbers;
  `t.Before(u)` is `t < u`.
* Cursor tokens are strings in Go, produced either by `time.Time.String()`
  (format `2006-01-02 15:04:05.999999999 -0700 MST`) or by
  `time.Time.Format(time.RFC3339)`.  Both renderings are injective on the
  timestamp domain and their ranges are disjoint (the two layouts differ at
  every timestamp), so tokens are modelled by the inductive `Cursor`, a
  timestamp tagged with the producing format.  String equality of tokens is
  `Cursor` equality; parsing a token back to a timestamp is `Cursor.time`.
* Go slice indexing that can be out of range at runtime (a panic) is
  modelled by returning `none`; `some` results are normal returns.
* Go maps are modelled as association lists; iteration order of a map is
  the order of the list.
-/

namespace BlogSystem

/-- Creation timestamp, modelling `time.Time` (`internal/models/models.go`);
`Before` is `<`. -/
abbrev Timestamp := Nat

/-- Model of `models.Post` (`internal/models/models.go:5-12`). -/
structure Post where
  id : String
  title : String
  content : String
  authorID : String
  allowComments : Bool
  createdAt : Timestamp
  deriving Repr, DecidableEq, Inhabited

/-- Model of `models.Comment` (`internal/models/models.go:14-21`). -/
structure Comment where
  id : String
  postID : String
  parentID : Option String
  authorID : String
  content : String
  createdAt : Timestamp
  deriving Repr, DecidableEq, Inhabited

/-- Model of a pagination-cursor token string: a timestamp together with the
string format that rendered it.  `goString` stands for Go's
`time.Time.String()` rendering, `rfc3339` for `Format(time.RFC3339)`.  The
two formats render every timestamp to different strings, hence the two
constructors never coincide. -/
inductive Cursor where
  | goString (t : Timestamp)
  | rfc3339 (t : Timestamp)
  deriving Repr, DecidableEq

/-- Timestamp carried by a cursor token (what `$n::TIMESTAMP` recovers). -/
def Cursor.time : Cursor → Timestamp
  | .goString t => t
  | .rfc3339 t => t

/-- Model of `models.PaginatedPosts` (`internal/models/models.go:29-33`). -/
structure PaginatedPosts where
  posts : List Post
  totalCount : Nat
  nextCursor : Option Cursor
  deriving Repr, DecidableEq

/-- Model of `models.PaginatedComments` (`internal/models/models.go:23-27`). -/
structure PaginatedComments where
  comments : List Comment
  totalCount : Nat
  nextCursor : Option Cursor
  deriving Repr, DecidableEq

/-! ## The exchange sort used by the in-memory backend

Both `MemoryStorage.ListPosts` (part_001:64-70) and
`MemoryStorage.GetComments` (part_001:143-149) sort by the double loop

    for i := 0; i < len(xs)-1; i++ {
      for j := i + 1; j < len(xs); j++ {
        if xs[i].CreatedAt.Before(xs[j].CreatedAt) { xs[i], xs[j] = xs[j], xs[i] }
      }
    }

The inner loop carries the current `xs[i]`; whenever the carry is older
than `xs[j]` the two are swapped, so position `j` receives the old carry
and the carry becomes the old `xs[j]`.  `selectMax` is exactly that inner
loop: it returns the final carry (the newest element) and the final
contents of positions `i+1 …`.  `exchSortAux` is the outer loop, with the
loop counter as explicit fuel (`exchSort` supplies `l.length`, the actual
trip count). -/

/-- Inner loop of the source's exchange sort: carry `c` through `l`,
swapping whenever the carry's key is strictly smaller. -/
def selectMax (key : α → Nat) : α → List α → α × List α
  | c, [] => (c, [])
  | c, x :: xs =>
    if key c < key x then
      let p := selectMax key x xs
      (p.1, c :: p.2)
    else
      let p := selectMax key c xs
      (p.1, x :: p.2)

/-- Outer loop of the source's exchange sort, fuelled. -/
def exchSortAux (key : α → Nat) : Nat → List α → List α
  | _, [] => []
  | 0, l => l
  | n + 1, x :: xs =>
    let p := selectMax key x xs
    p.1 :: exchSortAux key n p.2

/-- The exchange sort of part_001:64-70 / part_001:143-149: sorts by `key`
descending (newest first). -/
def exchSort (key : α → Nat) (l : List α) : List α :=
  exchSortAux key l.length l

theorem selectMax_snd_length (key : α → Nat) (c : α) (l : List α) :
    (selectMax key c l).2.length = l.length := by
  induction l generalizing c with
  | nil => rfl
  | cons x xs ih =>
    simp only [selectMax]
    split <;> simp [ih]

theorem selectMax_perm (key : α → Nat) (c : α) (l : List α) :
    List.Perm ((selectMax key c l).1 :: (selectMax key c l).2) (c :: l) := by
  induction l generalizing c with
  | nil => rfl
  | cons x xs ih =>
    simp only [selectMax]
    by_cases hlt : key c < key x
    · simp only [if_pos hlt]
      show List.Perm ((selectMax key x xs).1 :: c :: (selectMax key x xs).2) (c :: x :: xs)
      exact (List.Perm.swap c _ _).trans ((ih x).cons c)
    · simp only [if_neg hlt]
      show List.Perm ((selectMax key c xs).1 :: x :: (selectMax key c xs).2) (c :: x :: xs)
      exact ((List.Perm.swap x _ _).trans ((ih c).cons x)).trans (List.Perm.swap c x xs)

theorem selectMax_fst_max (key : α → Nat) (c : α) (l : List α) :
    ∀ a ∈ c :: l, key a ≤ key (selectMax key c l).1 := by
  induction l generalizing c with
  | nil =>
    intro a ha
    simp only [List.mem_singleton] at ha
    simp [ha, selectMax]
  | cons x xs ih =>
    intro a ha
    simp only [selectMax]
    by_cases hlt : key c < key x
    · simp only [if_pos hlt]
      show key a ≤ key (selectMax key x xs).1
      rcases List.mem_cons.mp ha with h | h
      · calc key a = key c := by rw [h]
          _ ≤ key x := le_of_lt hlt
          _ ≤ key (selectMax key x xs).1 := ih x x (List.mem_cons_self x xs)
      · exact ih x a h
    · simp only [if_neg hlt]
      show key a ≤ key (selectMax key c xs).1
      rcases List.mem_cons.mp ha with h | h
      · rw [h]
        exact ih c c (List.mem_cons_self c xs)
      · rcases List.mem_cons.mp h with h2 | h2
        · calc key a = key x := by rw [h2]
            _ ≤ key c := le_of_not_lt hlt
            _ ≤ key (selectMax key c xs).1 := ih c c (List.mem_cons_self c xs)
        · exact ih c a (List.mem_cons_of_mem c h2)

theorem exchSortAux_perm (key : α → Nat) :
    ∀ n (l : List α), l.length ≤ n → List.Perm (exchSortAux key n l) l := by
  intro n
  induction n with
  | zero =>
    intro l hl
    have h : l = [] := List.length_eq_zero.1 (Nat.le_zero.1 hl)
    subst h; rfl
  | succ n ih =>
    intro l hl
    match l with
    | [] => rfl
    | x :: xs =>
      simp only [exchSortAux]
      have hlen : (selectMax key x xs).2.length ≤ n := by
        rw [selectMax_snd_length]
        simpa using hl
      exact ((ih _ hlen).cons _).trans (selectMax_perm key x xs)

theorem exchSort_perm (key : α → Nat) (l : List α) :
    List.Perm (exchSort key l) l :=
  exchSortAux_perm key l.length l le_rfl

theorem exchSortAux_pairwise (key : α → Nat) :
    ∀ n (l : List α), l.length ≤ n →
      (exchSortAux key n l).Pairwise (fun a b => key b ≤ key a) := by
  intro n
  induction n with
  | zero =>
    intro l hl
    have h : l = [] := List.length_eq_zero.1 (Nat.le_zero.1 hl)
    subst h
    simp [exchSortAux]
  | succ n ih =>
    intro l hl
    match l with
    | [] => simp [exchSortAux]
    | x :: xs =>
      simp only [exchSortAux]
      have hlen : (selectMax key x xs).2.length ≤ n := by
        rw [selectMax_snd_length]
        simpa using hl
      refine List.pairwise_cons.2 ⟨?_, ih _ hlen⟩
      intro a ha
      have hmem : a ∈ (selectMax key x xs).2 :=
        (exchSortAux_perm key n _ hlen).subset ha
      have : a ∈ x :: xs :=
        (selectMax_perm key x xs).subset (List.mem_cons_of_mem _ hmem)
      exact selectMax_fst_max key x xs a this

theorem exchSort_pairwise (key : α → Nat) (l : List α) :
    (exchSort key l).Pairwise (fun a b => key b ≤ key a) :=
  exchSortAux_pairwise key l.length l le_rfl

/-- With pairwise-distinct keys, the exchange sort is strictly descending. -/
theorem exchSort_pairwise_lt (key : α → Nat) (l : List α)
    (h : (l.map key).Nodup) :
    (exchSort key l).Pairwise (fun a b => key b < key a) := by
  have hperm : List.Perm ((exchSort key l).map key) (l.map key) :=
    (exchSort_perm key l).map key
  have hnodup : ((exchSort key l).map key).Nodup := hperm.nodup_iff.2 h
  have hne : (exchSort key l).Pairwise (fun a b => key a ≠ key b) :=
    (List.pairwise_map).1 hnodup
  exact ((exchSort_pairwise key l).and hne).imp
    (fun hab => lt_of_le_of_ne hab.1 (Ne.symm hab.2))

/-! ## Cursor application and slicing in the in-memory backend

`MemoryStorage.ListPosts` (part_001:75-98) and `MemoryStorage.GetComments`
(part_001:154-177) apply the cursor and the limit to the sorted list with
identical code:

    startIdx := 0
    if cursor != nil {
      for i, x := range sorted { if x.CreatedAt.String() == *cursor { startIdx = i + 1; break } }
    }
    endIdx := startIdx + limit
    if endIdx > len(sorted) { endIdx = len(sorted) }
    result := sorted[startIdx:endIdx]
    var nextCursor *string
    if endIdx < len(sorted) { cursorVal := sorted[endIdx-1].CreatedAt.String(); nextCursor = &cursorVal }

`pageCore` models this slab, generically in the element type with the
`CreatedAt` accessor as `key`.  When `endIdx < len(sorted)` and
`endIdx = 0` the Go code indexes `sorted[-1]`, a runtime panic, modelled as
`none`. -/

/-- The cursor scan of part_001:77-82: index of the first element whose
`CreatedAt.String()` equals the cursor token. -/
def findCursorStart (key : α → Nat) (cur : Cursor) : List α → Option Nat
  | [] => none
  | x :: xs =>
    if Cursor.goString (key x) = cur then some 0
    else (findCursorStart key cur xs).map (· + 1)

/-- The value of `startIdx` after part_001:75-84. -/
def pageStart (key : α → Nat) (l : List α) : Option Cursor → Nat
  | none => 0
  | some cur =>
    match findCursorStart key cur l with
    | some i => i + 1
    | none => 0

/-- Cursor application, slicing and next-cursor computation of
part_001:75-98 (identically part_001:154-177), on the already-sorted list.
Returns the result slice and the next cursor, or `none` for the
`sorted[-1]` panic. -/
def pageCore [Inhabited α] (key : α → Nat) (l : List α) (limit : Nat)
    (cursor : Option Cursor) : Option (List α × Option Cursor) :=
  let startIdx := pageStart key l cursor
  let endIdx := min (startIdx + limit) l.length
  let result := (l.drop startIdx).take (endIdx - startIdx)
  if endIdx < l.length then
    match endIdx with
    | 0 => none
    | e + 1 => some (result, some (.goString (key (l.getD e default))))
  else
    some (result, none)

/-- Model of `MemoryStorage.ListPosts` (part_001:53-105).  The argument
`state` is the value slice of the `posts` map in iteration order. -/
def memListPosts (state : List Post) (limit : Nat) (cursor : Option Cursor) :
    Option PaginatedPosts :=
  let posts := exchSort Post.createdAt state
  match pageCore Post.createdAt posts limit cursor with
  | none => none
  | some (result, nextCursor) => some ⟨result, posts.length, nextCursor⟩

/-- Does a row pass the SQL cursor condition
`($1::TIMESTAMP IS NULL OR created_at < $1)`
(postrges.go:102, postrges.go:176)? -/
def cursorTest : Option Cursor → Timestamp → Bool
  | none, _ => true
  | some c, t => t < c.time

/-- Next-cursor computation of `PostgresStorage.ListPosts`
(postrges.go:123-129) and `PostgresStorage.GetComments`
(postrges.go:205-211): the query fetched `limit+1` rows; if more than
`limit` arrived, the page is truncated to `limit` rows and the cursor is
rendered (`enc`) from `rows[limit-1]`.  With `limit = 0` the Go code
indexes `rows[-1]`, a runtime panic, modelled as `none`. -/
def pgNext [Inhabited α] (key : α → Nat) (enc : Timestamp → Cursor)
    (rows : List α) (limit : Nat) : Option (List α × Option Cursor) :=
  if limit < rows.length then
    match limit with
    | 0 => none
    | lim + 1 => some (rows.take (lim + 1), some (enc (key (rows.getD lim default))))
  else
    some (rows, none)

/-- Pure model of `PostgresStorage.ListPosts` (postrges.go:88-137) over the
declared SQL semantics: `COUNT(*)` is the table size; the page query
filters rows strictly older than the cursor's timestamp, orders by
`created_at DESC` and fetches `limit+1` rows.  The next cursor is rendered
with `time.Time.String()` (postrges.go:126). -/
def pgListPosts (table : List Post) (limit : Nat) (cursor : Option Cursor) :
    Option PaginatedPosts :=
  let totalCount := table.length
  let rows :=
    (exchSort Post.createdAt (table.filter fun p => cursorTest cursor p.createdAt)).take
      (limit + 1)
  match pgNext Post.createdAt Cursor.goString rows limit with
  | none => none
  | some (posts, nextCursor) => some ⟨posts, totalCount, nextCursor⟩

/-- Pure model of `PostgresStorage.GetComments` (postrges.go:153-219) over
the declared SQL semantics: the count query filters on
`post_id=$1 AND parent_id IS NOT DISTINCT FROM $2` (postrges.go:156-159),
the page query additionally on the cursor (postrges.go:172-178).  The next
cursor is rendered with `Format(time.RFC3339)` (postrges.go:208). -/
def pgGetComments (table : List Comment) (postID : String)
    (parentID : Option String) (limit : Nat) (cursor : Option Cursor) :
    Option PaginatedComments :=
  let sel := fun (c : Comment) => decide (c.postID = postID) && decide (c.parentID = parentID)
  let totalCount := (table.filter sel).length
  let rows :=
    (exchSort Comment.createdAt
        (table.filter fun c => sel c && cursorTest cursor c.createdAt)).take
      (limit + 1)
  match pgNext Comment.createdAt Cursor.rfc3339 rows limit with
  | none => none
  | some (comments, nextCursor) => some ⟨comments, totalCount, nextCursor⟩

/-! ## Control-flow models of the PostgreSQL backend

`PostgresStorage.ListPosts` and `PostgresStorage.GetComments` differ
sharply in how they treat database failures.  The models below follow the
Go control flow with the outcome of each database interaction injected as
a parameter: the count query result, and the page query result whose rows
each carry their own scan outcome. -/

/-- The row-scanning loop (postrges.go:113-121, postrges.go:191-203): rows
are scanned in order and the first scan failure aborts, discarding the
rows already accumulated. -/
def scanAll : List (Except String β) → Except String (List β)
  | [] => .ok []
  | .error e :: _ => .error e
  | .ok b :: rest => (scanAll rest).map (b :: ·)

/-- Control-flow model of `PostgresStorage.ListPosts` (postrges.go:88-137):
a count failure returns the error wrapped `failed to count posts:`
(postrges.go:93-96), a query failure `failed to query posts:`
(postrges.go:106-109), a scan failure `failed to scan post:`
(postrges.go:115-118).  On success the next-cursor logic of
postrges.go:123-129 runs (`none` inside `.ok` is the `rows[-1]` panic). -/
def pgListPostsCtl (countRes : Except String Nat)
    (queryRes : Except String (List (Except String Post))) (limit : Nat) :
    Except String (Option PaginatedPosts) :=
  match countRes with
  | .error e => .error ("failed to count posts: " ++ e)
  | .ok totalCount =>
    match queryRes with
    | .error e => .error ("failed to query posts: " ++ e)
    | .ok rawRows =>
      match scanAll rawRows with
      | .error e => .error ("failed to scan post: " ++ e)
      | .ok rows =>
        match pgNext Post.createdAt Cursor.goString rows limit with
        | none => .ok none
        | some (posts, nextCursor) => .ok (some ⟨posts, totalCount, nextCursor⟩)

/-- Control-flow model of `PostgresStorage.GetComments`
(postrges.go:153-219): a count failure is swallowed and an empty page is
returned successfully (postrges.go:161-169, the source comment reads
"Возвращаем пустой результат вместо ошибки"); a page-query failure is
swallowed into `⟨[], totalCount, none⟩` (postrges.go:180-187); a scan
failure likewise (postrges.go:193-200).  Only the happy path reaches the
next-cursor logic of postrges.go:205-211. -/
def pgGetCommentsCtl (countRes : Except String Nat)
    (queryRes : Except String (List (Except String Comment))) (limit : Nat) :
    Except String (Option PaginatedComments) :=
  match countRes with
  | .error _ => .ok (some ⟨[], 0, none⟩)
  | .ok totalCount =>
    match queryRes with
    | .error _ => .ok (some ⟨[], totalCount, none⟩)
    | .ok rawRows =>
      match scanAll rawRows with
      | .error _ => .ok (some ⟨[], totalCount, none⟩)
      | .ok rows =>
        match pgNext Comment.createdAt Cursor.rfc3339 rows limit with
        | none => .ok none
        | some (comments, nextCursor) => .ok (some ⟨comments, totalCount, nextCursor⟩)

/-! ## The in-memory storage -/

/-- Association-list lookup, modelling Go map access `m[k]` (`nil`,
i.e. `none`, when the key is absent). -/
def lookupKey (k : String) : List (String × β) → Option β
  | [] => none
  | (k', v) :: rest => if k' = k then some v else lookupKey k rest

/-- Model of `m[k] = append(m[k], c)` on a `map[string][]T`: the entry is
extended in place, or created at the end when absent. -/
def appendEntry (k : String) (c : β) : List (String × List β) → List (String × List β)
  | [] => [(k, [c])]
  | (k', v) :: rest =>
    if k' = k then (k', v ++ [c]) :: rest else (k', v) :: appendEntry k c rest

/-- Model of `m[k] = v` on a Go map. -/
def setEntry (k : String) (v : β) : List (String × β) → List (String × β)
  | [] => [(k, v)]
  | (k', v') :: rest =>
    if k' = k then (k', v) :: rest else (k', v') :: setEntry k v rest

/-- Model of `delete(m, k)` on a Go map. -/
def dropEntry (k : String) : List (String × β) → List (String × β)
  | [] => []
  | (k', v) :: rest =>
    if k' = k then rest else (k', v) :: dropEntry k rest

/-- Model of `MemoryStorage` (part_001:13-17): the two maps, as
association lists. -/
structure MemoryStorage where
  posts : List (String × Post)
  comments : List (String × List Comment)
  deriving Repr, DecidableEq

/-- Model of `MemoryStorage.GetPost` (part_001:39-50). -/
def MemoryStorage.getPost (s : MemoryStorage) (id : String) : Except String Post :=
  match lookupKey id s.posts with
  | none => .error "post not found"
  | some post => .ok post

/-- Model of `MemoryStorage.CreateComment` (part_001:108-119): fails when
the post is unknown, otherwise appends the comment to the post's slice. -/
def MemoryStorage.createComment (s : MemoryStorage) (c : Comment) :
    Except String MemoryStorage :=
  match lookupKey c.postID s.posts with
  | none => .error "post not found"
  | some _ => .ok { s with comments := appendEntry c.postID c s.comments }

/-- Model of `MemoryStorage.GetComments` (part_001:122-184): a post
identifier with no map entry returns an empty page successfully
(part_001:127-131); otherwise the comments are filtered by parent
(part_001:134-140, the condition is `Option` equality of the parent ids),
sorted (part_001:143-149), and paged (part_001:154-177). -/
def MemoryStorage.getComments (s : MemoryStorage) (postID : String)
    (parentID : Option String) (limit : Nat) (cursor : Option Cursor) :
    Option PaginatedComments :=
  match lookupKey postID s.comments with
  | none => some ⟨[], 0, none⟩
  | some comments =>
    let filtered := comments.filter fun c => decide (c.parentID = parentID)
    let sorted := exchSort Comment.createdAt filtered
    match pageCore Comment.createdAt sorted limit cursor with
    | none => none
    | some (result, nextCursor) => some ⟨result, filtered.length, nextCursor⟩

/-! ## The notification hub

`subscriptionHandler` (resolver.go:55-58) maps a post identifier to a
slice of buffered channels of capacity 1 (resolver.go:336).  A channel is
modelled by its identity and its one-slot buffer content; a non-blocking
`select`-send succeeds exactly when the buffer is free. -/

/-- A registered subscriber channel: identity plus the one-slot buffer. -/
structure Sub where
  chanId : Nat
  buf : Option Comment
  deriving Repr, DecidableEq

/-- The per-post channel registry `commentChannels` (resolver.go:56). -/
abbrev Registry := List (String × List Sub)

/-- The fan-out loop of `CreateComment` (resolver.go:311-320): channels are
visited in order; a free channel receives the comment and is kept
(appended to `newChannels`), a full channel is skipped and NOT kept — the
`default` branch logs `удаление канала` and drops it from the rebuilt
slice. -/
def sendAll (c : Comment) : List Sub → List Sub
  | [] => []
  | ch :: rest =>
    if ch.buf = none then { ch with buf := some c } :: sendAll c rest
    else sendAll c rest

/-- The notification block of `CreateComment` (resolver.go:307-329): if the
post has registered channels, rebuild the slice via the fan-out loop and
delete the entry when no channel survived. -/
def publish (reg : Registry) (postID : String) (c : Comment) : Registry :=
  match lookupKey postID reg with
  | none => reg
  | some channels =>
    let newChannels := sendAll c channels
    if newChannels.isEmpty then dropEntry postID reg
    else setEntry postID newChannels reg

/-- Registration step of `CommentAdded` (resolver.go:336-340): a fresh
channel (empty buffer) is appended under the post identifier. -/
def subscribe (reg : Registry) (postID : String) (chanId : Nat) : Registry :=
  appendEntry postID ⟨chanId, none⟩ reg

/-- The removal loop of the lifecycle watcher (resolver.go:346-353): the
first channel equal (by identity) to the subscriber's channel is removed;
if none matches the slice is unchanged. -/
def removeFirstChan (id : Nat) : List Sub → List Sub
  | [] => []
  | ch :: rest => if ch.chanId = id then rest else ch :: removeFirstChan id rest

/-- The lifecycle watcher body (resolver.go:342-361), run when the
subscription's context fires: remove the channel from the post's slice,
delete the registry entry if it became empty (resolver.go:354-357), then
close the channel.  Closing is the unconditional final step and is
observable here only through the channel's absence from the result. -/
def unsubscribe (reg : Registry) (postID : String) (id : Nat) : Registry :=
  let channels := (lookupKey postID reg).getD []
  let removed := removeFirstChan id channels
  if removed.isEmpty then dropEntry postID reg
  else setEntry postID removed reg

/-- Channels currently registered for a post. -/
def chansOf (reg : Registry) (postID : String) : List Sub :=
  (lookupKey postID reg).getD []

/-! ## The `CreateComment` mutation

`mutationResolver.CreateComment` (resolver.go:263-331).  The storage is an
interface; `createCommentCtl` takes the outcomes of the two storage calls
as parameters, and `createCommentMem` instantiates them with the in-memory
backend.  The fresh UUID and the current time are parameters
(`newID`, `now`). -/

/-- Control-flow model of `mutationResolver.CreateComment`
(resolver.go:263-331): content-length validation (resolver.go:265-268),
identity fallback to `user1` (resolver.go:269-273), post fetch
(resolver.go:274-278), comments-enabled check (resolver.go:279-282),
store write (resolver.go:300-303), then — only on store success —
notification fan-out (resolver.go:306-329) before returning the comment.
Returns the mutation result together with the registry after the call. -/
def createCommentCtl (getPostRes : Except String Post)
    (createRes : Except String Unit) (reg : Registry) (postID : String)
    (parentID : Option String) (content : String) (userIDCtx : Option String)
    (newID : String) (now : Timestamp) : Except String Comment × Registry :=
  if content.length > 2000 then
    (.error "comment content exceeds 2000 characters", reg)
  else
    let userID := userIDCtx.getD "user1"
    match getPostRes with
    | .error e => (.error ("failed to get post: " ++ e), reg)
    | .ok post =>
      if !post.allowComments then
        (.error "comments are disabled for this post", reg)
      else
        let comment : Comment := ⟨newID, postID, parentID, userID, content, now⟩
        match createRes with
        | .error e => (.error ("failed to create comment: " ++ e), reg)
        | .ok _ => (.ok comment, publish reg postID comment)

/-- `mutationResolver.CreateComment` wired to the in-memory backend:
`GetPost` is part_001:39-50 and `CreateComment` part_001:108-119.  Returns
the mutation result, the storage state and the registry after the call. -/
def createCommentMem (s : MemoryStorage) (reg : Registry) (postID : String)
    (parentID : Option String) (content : String) (userIDCtx : Option String)
    (newID : String) (now : Timestamp) :
    Except String Comment × MemoryStorage × Registry :=
  if content.length > 2000 then
    (.error "comment content exceeds 2000 characters", s, reg)
  else
    let userID := userIDCtx.getD "user1"
    match s.getPost postID with
    | .error e => (.error ("failed to get post: " ++ e), s, reg)
    | .ok post =>
      if !post.allowComments then
        (.error "comments are disabled for this post", s, reg)
      else
        let comment : Comment := ⟨newID, postID, parentID, userID, content, now⟩
        match s.createComment comment with
        | .error e => (.error ("failed to create comment: " ++ e), s, reg)
        | .ok s' => (.ok comment, s', publish reg postID comment)

/-! ## Lemmas about the pagination core -/

theorem findCursorStart_lt_length (key : α → Nat) (cur : Cursor) :
    ∀ (l : List α) (i : Nat), findCursorStart key cur l = some i → i < l.length := by
  intro l
  induction l with
  | nil => intro i h; simp [findCursorStart] at h
  | cons x xs ih =>
    intro i h
    simp only [findCursorStart] at h
    split at h
    · cases h
      simp
    · cases heq : findCursorStart key cur xs with
      | none =>
        rw [heq] at h
        simp at h
      | some j =>
        rw [heq] at h
        simp only [Option.map_some'] at h
        cases h
        have := ih j heq
        simp only [List.length_cons]
        omega

/-- On a list with pairwise-distinct keys, the cursor scan of
part_001:77-82 finds exactly the element the cursor was rendered from. -/
theorem findCursorStart_getD [Inhabited α] (key : α → Nat) (l : List α)
    (hn : (l.map key).Nodup) (i : Nat) (hi : i < l.length) :
    findCursorStart key (.goString (key (l.getD i default))) l = some i := by
  induction l generalizing i with
  | nil => simp at hi
  | cons x xs ih =>
    cases i with
    | zero => simp [findCursorStart]
    | succ j =>
      have hj : j < xs.length := by simpa using Nat.lt_of_succ_lt_succ hi
      have hmap : (List.map key (x :: xs)).Nodup := hn
      rw [List.map_cons, List.nodup_cons] at hmap
      simp only [List.getD_cons_succ, findCursorStart]
      rw [if_neg ?_, ih hmap.2 j hj]
      · rfl
      · intro hEq
        have hkey : key x = key (xs.getD j default) := Cursor.goString.inj hEq
        have hmem : xs.getD j default ∈ xs := by
          rw [List.getD_eq_getElem xs default hj]
          exact List.getElem_mem hj
        exact hmap.1 (hkey ▸ List.mem_map_of_mem key hmem)

theorem pageStart_le (key : α → Nat) (l : List α) (cursor : Option Cursor) :
    pageStart key l cursor ≤ l.length := by
  match cursor with
  | none => exact Nat.zero_le _
  | some cur =>
    simp only [pageStart]
    match heq : findCursorStart key cur l with
    | none => exact Nat.zero_le _
    | some i => exact findCursorStart_lt_length key cur l i heq

/-- The cursor token that resumes a walk at offset `k` of the sorted list
`l`: `none` for the first page, otherwise the `String()` rendering of the
timestamp of the element just before the offset. -/
def cursorAt [Inhabited α] (key : α → Nat) (l : List α) : Nat → Option Cursor
  | 0 => none
  | k + 1 => some (.goString (key (l.getD k default)))

theorem pageStart_cursorAt [Inhabited α] (key : α → Nat) (l : List α)
    (hn : (l.map key).Nodup) (k : Nat) (hk : k ≤ l.length) :
    pageStart key l (cursorAt key l k) = k := by
  match k with
  | 0 => rfl
  | k + 1 =>
    simp only [cursorAt, pageStart]
    rw [findCursorStart_getD key l hn k (Nat.lt_of_succ_le hk)]

/-- Behaviour of the slicing slab part_001:86-98 with a positive limit:
page `limit` elements from the start offset determined by the cursor; the
next cursor resumes exactly after them, and is present iff elements
remain. -/
theorem pageCore_spec [Inhabited α] (key : α → Nat) (l : List α)
    (limit : Nat) (cursor : Option Cursor) (hlim : 1 ≤ limit) :
    pageCore key l limit cursor =
      if pageStart key l cursor + limit < l.length then
        some ((l.drop (pageStart key l cursor)).take limit,
          cursorAt key l (pageStart key l cursor + limit))
      else
        some (l.drop (pageStart key l cursor), none) := by
  have hkle : pageStart key l cursor ≤ l.length := pageStart_le key l cursor
  simp only [pageCore]
  by_cases h : pageStart key l cursor + limit < l.length
  · have hmin : min (pageStart key l cursor + limit) l.length
        = pageStart key l cursor + limit := Nat.min_eq_left (Nat.le_of_lt h)
    rw [hmin, if_pos h, if_pos h]
    obtain ⟨e, he⟩ : ∃ e, pageStart key l cursor + limit = e + 1 :=
      ⟨pageStart key l cursor + limit - 1, by omega⟩
    rw [he]
    have harith : e + 1 - pageStart key l cursor = limit := by omega
    rw [harith]
    rfl
  · have hge : l.length ≤ pageStart key l cursor + limit := Nat.le_of_not_lt h
    have hmin : min (pageStart key l cursor + limit) l.length = l.length :=
      Nat.min_eq_right hge
    rw [hmin, if_neg h, if_neg (lt_irrefl l.length)]
    have htake : (l.drop (pageStart key l cursor)).take (l.length - pageStart key l cursor)
        = l.drop (pageStart key l cursor) := by
      rw [← List.length_drop]
      exact List.take_length _
    rw [htake]

/-- In a strictly descending list, later elements have strictly smaller
keys. -/
theorem pairwise_lt_getElem (key : α → Nat) (l : List α)
    (hs : l.Pairwise (fun a b => key b < key a)) (i j : Nat)
    (hi : i < l.length) (hj : j < l.length) (hij : i < j) :
    key l[j] < key l[i] :=
  List.pairwise_iff_getElem.mp hs i j hi hj hij

/-- On a strictly descending list, the SQL cursor filter
`created_at < cursor` with the cursor rendered from the element at
`k - 1` keeps exactly the suffix from `k` on. -/
theorem filter_lt_eq_drop [Inhabited α] (key : α → Nat) (l : List α)
    (k : Nat) (hk1 : 1 ≤ k) (hk : k ≤ l.length)
    (hs : l.Pairwise (fun a b => key b < key a)) :
    l.filter (fun a => decide (key a < key (l.getD (k - 1) default)))
      = l.drop k := by
  have hk1' : k - 1 < l.length := by omega
  have hgd : key (l.getD (k - 1) default) = key l[k - 1] := by
    rw [List.getD_eq_getElem l default hk1']
  rw [hgd]
  have hsplit : l.filter (fun a => decide (key a < key l[k - 1]))
      = (l.take k).filter (fun a => decide (key a < key l[k - 1]))
        ++ (l.drop k).filter (fun a => decide (key a < key l[k - 1])) := by
    rw [← List.filter_append, List.take_append_drop]
  rw [hsplit]
  have h1 : (l.take k).filter
      (fun a => decide (key a < key l[k - 1])) = [] := by
    rw [List.filter_eq_nil_iff]
    intro a ha
    obtain ⟨i, hilt, hieq⟩ := List.mem_iff_getElem.mp ha
    have hik : i < k := by
      have := hilt
      simp only [List.length_take] at this
      omega
    have hil : i < l.length := by omega
    have hval : (l.take k)[i] = l[i] := List.getElem_take l
    rcases Nat.lt_or_ge i (k - 1) with hlt | hge
    · have := pairwise_lt_getElem key l hs i (k - 1) hil hk1' hlt
      simp only [← hieq, hval, decide_eq_true_eq]
      omega
    · have hieq2 : i = k - 1 := by omega
      subst hieq2
      simp only [← hieq, hval, decide_eq_true_eq]
      omega
  have h2 : (l.drop k).filter
      (fun a => decide (key a < key l[k - 1])) = l.drop k := by
    rw [List.filter_eq_self]
    intro a ha
    obtain ⟨i, hilt, hieq⟩ := List.mem_iff_getElem.mp ha
    have hil : k + i < l.length := by
      have := hilt
      simp only [List.length_drop] at this
      omega
    have hval : (l.drop k)[i] = l[k + i] := List.getElem_drop l
    have := pairwise_lt_getElem key l hs (k - 1) (k + i) hk1' hil (by omega)
    simp only [← hieq, hval, decide_eq_true_eq]
    omega
  rw [h1, h2, List.nil_append]

/-- Two strictly descending lists that are permutations of each other are
equal. -/
theorem eq_of_perm_of_pairwise_lt (key : α → Nat) (l₁ l₂ : List α)
    (hp : List.Perm l₁ l₂)
    (h₁ : l₁.Pairwise (fun a b => key b < key a))
    (h₂ : l₂.Pairwise (fun a b => key b < key a)) : l₁ = l₂ := by
  haveI : IsAntisymm α (fun a b => key b < key a) :=
    ⟨fun a b hab hba => absurd hab (Nat.lt_asymm hba)⟩
  exact List.eq_of_perm_of_sorted hp h₁ h₂

/-! ## Step behaviour of `ListPosts` on both backends

Both step lemmas describe one `ListPosts` call resuming at offset `k` of
the descending-sorted post list, under pairwise-distinct creation
timestamps and a positive limit. -/

theorem memListPosts_at (state : List Post) (limit k : Nat)
    (hn : (state.map Post.createdAt).Nodup) (hlim : 1 ≤ limit)
    (hk : k ≤ (exchSort Post.createdAt state).length) :
    memListPosts state limit
        (cursorAt Post.createdAt (exchSort Post.createdAt state) k) =
      if k + limit < (exchSort Post.createdAt state).length then
        some ⟨((exchSort Post.createdAt state).drop k).take limit,
          (exchSort Post.createdAt state).length,
          cursorAt Post.createdAt (exchSort Post.createdAt state) (k + limit)⟩
      else
        some ⟨(exchSort Post.createdAt state).drop k,
          (exchSort Post.createdAt state).length, none⟩ := by
  have hnl : ((exchSort Post.createdAt state).map Post.createdAt).Nodup :=
    ((exchSort_perm Post.createdAt state).map Post.createdAt).nodup_iff.2 hn
  have hps : pageStart Post.createdAt (exchSort Post.createdAt state)
      (cursorAt Post.createdAt (exchSort Post.createdAt state) k) = k :=
    pageStart_cursorAt Post.createdAt _ hnl k hk
  simp only [memListPosts]
  rw [pageCore_spec Post.createdAt _ limit _ hlim, hps]
  by_cases h : k + limit < (exchSort Post.createdAt state).length
  · rw [if_pos h, if_pos h]
  · rw [if_neg h, if_neg h]

/-- The page query of `PostgresStorage.ListPosts` resumed at offset `k`
fetches exactly the suffix of the descending-sorted table from `k` on
(before the `LIMIT` is applied). -/
theorem pgFilter_eq_drop (table : List Post) (k : Nat)
    (hn : (table.map Post.createdAt).Nodup)
    (hk : k ≤ (exchSort Post.createdAt table).length) :
    exchSort Post.createdAt
        (table.filter fun p =>
          cursorTest (cursorAt Post.createdAt (exchSort Post.createdAt table) k)
            p.createdAt)
      = (exchSort Post.createdAt table).drop k := by
  have hnl : ((exchSort Post.createdAt table).map Post.createdAt).Nodup :=
    ((exchSort_perm Post.createdAt table).map Post.createdAt).nodup_iff.2 hn
  have hsl : (exchSort Post.createdAt table).Pairwise
      (fun a b => Post.createdAt b < Post.createdAt a) := by
    have := exchSort_pairwise_lt Post.createdAt table hn
    exact this
  match k with
  | 0 =>
    simp only [cursorAt, cursorTest, List.drop_zero]
    rw [List.filter_true]
  | j + 1 =>
    have hpred : (fun p =>
        cursorTest (cursorAt Post.createdAt (exchSort Post.createdAt table) (j + 1))
          p.createdAt)
        = fun p => decide (Post.createdAt p <
            Post.createdAt ((exchSort Post.createdAt table).getD j default)) := by
      funext p
      simp only [cursorAt, cursorTest, Cursor.time]
    rw [hpred]
    have hdropped : (exchSort Post.createdAt table).filter
        (fun p => decide (Post.createdAt p <
          Post.createdAt ((exchSort Post.createdAt table).getD j default)))
        = (exchSort Post.createdAt table).drop (j + 1) := by
      have := filter_lt_eq_drop Post.createdAt (exchSort Post.createdAt table)
        (j + 1) (Nat.le_add_left 1 j) hk hsl
      simpa using this
    have hperm : List.Perm
        (exchSort Post.createdAt
          (table.filter fun p => decide (Post.createdAt p <
            Post.createdAt ((exchSort Post.createdAt table).getD j default))))
        ((exchSort Post.createdAt table).drop (j + 1)) := by
      refine (exchSort_perm Post.createdAt _).trans ?_
      rw [← hdropped]
      exact List.Perm.filter _ (exchSort_perm Post.createdAt table).symm
    refine eq_of_perm_of_pairwise_lt Post.createdAt _ _ hperm ?_ ?_
    · refine exchSort_pairwise_lt Post.createdAt _ ?_
      exact List.Nodup.sublist (List.Sublist.map Post.createdAt (List.filter_sublist table)) hn
    · exact List.Pairwise.sublist (List.drop_sublist (j + 1) _) hsl

theorem pgListPosts_at (table : List Post) (limit k : Nat)
    (hn : (table.map Post.createdAt).Nodup) (hlim : 1 ≤ limit)
    (hk : k ≤ (exchSort Post.createdAt table).length) :
    pgListPosts table limit
        (cursorAt Post.createdAt (exchSort Post.createdAt table) k) =
      if k + limit < (exchSort Post.createdAt table).length then
        some ⟨((exchSort Post.createdAt table).drop k).take limit, table.length,
          cursorAt Post.createdAt (exchSort Post.createdAt table) (k + limit)⟩
      else
        some ⟨(exchSort Post.createdAt table).drop k, table.length, none⟩ := by
  have hlen : (exchSort Post.createdAt table).length = table.length :=
    (exchSort_perm Post.createdAt table).length_eq
  simp only [pgListPosts]
  rw [pgFilter_eq_drop table k hn hk]
  have hrowlen : (((exchSort Post.createdAt table).drop k).take (limit + 1)).length
      = min (limit + 1) ((exchSort Post.createdAt table).length - k) := by
    simp [List.length_take, List.length_drop]
  by_cases h : k + limit < (exchSort Post.createdAt table).length
  · have hfetch : limit <
        (((exchSort Post.createdAt table).drop k).take (limit + 1)).length := by
      rw [hrowlen]; omega
    obtain ⟨lim, hlimeq⟩ : ∃ lim, limit = lim + 1 := ⟨limit - 1, by omega⟩
    subst hlimeq
    simp only [pgNext, if_pos hfetch]
    have htake : (((exchSort Post.createdAt table).drop k).take (lim + 1 + 1)).take (lim + 1)
        = ((exchSort Post.createdAt table).drop k).take (lim + 1) := by
      rw [List.take_take]
      congr 1
      omega
    have hidx : lim <
        (((exchSort Post.createdAt table).drop k).take (lim + 1 + 1)).length := by
      rw [hrowlen]; omega
    have hdroplen : lim < ((exchSort Post.createdAt table).drop k).length := by
      rw [List.length_drop]; omega
    have hlidx : k + lim < (exchSort Post.createdAt table).length := by omega
    have hgd : (((exchSort Post.createdAt table).drop k).take (lim + 1 + 1)).getD lim default
        = (exchSort Post.createdAt table).getD (k + lim) default := by
      rw [List.getD_eq_getElem _ default hidx, List.getD_eq_getElem _ default hlidx]
      rw [List.getElem_take _, List.getElem_drop _]
    have hcur : cursorAt Post.createdAt (exchSort Post.createdAt table) (k + (lim + 1))
        = some (.goString (Post.createdAt
            ((exchSort Post.createdAt table).getD (k + lim) default))) := by
      have : k + (lim + 1) = (k + lim) + 1 := by omega
      rw [this]
      rfl
    rw [if_pos h, htake, hgd, hcur]
  · have hrows : ((exchSort Post.createdAt table).drop k).take (limit + 1)
        = (exchSort Post.createdAt table).drop k := by
      apply List.take_of_length_le
      rw [List.length_drop]
      omega
    have hfetch : ¬ limit <
        (((exchSort Post.createdAt table).drop k).take (limit + 1)).length := by
      rw [hrowlen]; omega
    simp only [pgNext, if_neg hfetch]
    rw [if_neg h, hrows]

/-! ## Repeated pagination walks

`memPaginate` / `pgPaginate` model a client that calls `ListPosts` with a
null cursor and keeps following `nextCursor` until it is absent,
concatenating the returned pages.  The fuel bounds the number of calls; a
walk that runs out of fuel, or hits a panicking call, is `none`. -/

/-- Follow `nextCursor` through `MemoryStorage.ListPosts`, concatenating
pages. -/
def memPaginate (state : List Post) (limit : Nat) :
    Nat → Option Cursor → Option (List Post)
  | 0, _ => none
  | fuel + 1, cursor =>
    match memListPosts state limit cursor with
    | none => none
    | some page =>
      match page.nextCursor with
      | none => some page.posts
      | some cur => (memPaginate state limit fuel (some cur)).map (page.posts ++ ·)

/-- Follow `nextCursor` through `PostgresStorage.ListPosts`, concatenating
pages. -/
def pgPaginate (table : List Post) (limit : Nat) :
    Nat → Option Cursor → Option (List Post)
  | 0, _ => none
  | fuel + 1, cursor =>
    match pgListPosts table limit cursor with
    | none => none
    | some page =>
      match page.nextCursor with
      | none => some page.posts
      | some cur => (pgPaginate table limit fuel (some cur)).map (page.posts ++ ·)

theorem memPaginate_from (state : List Post) (limit : Nat)
    (hn : (state.map Post.createdAt).Nodup) (hlim : 1 ≤ limit) :
    ∀ fuel k, k ≤ (exchSort Post.createdAt state).length →
      (exchSort Post.createdAt state).length - k < fuel →
      memPaginate state limit fuel
          (cursorAt Post.createdAt (exchSort Post.createdAt state) k)
        = some ((exchSort Post.createdAt state).drop k) := by
  intro fuel
  induction fuel with
  | zero => intro k _ hfuel; omega
  | succ fuel ih =>
    intro k hk hfuel
    simp only [memPaginate]
    rw [memListPosts_at state limit k hn hlim hk]
    by_cases h : k + limit < (exchSort Post.createdAt state).length
    · rw [if_pos h]
      obtain ⟨e, he⟩ : ∃ e, k + limit = e + 1 := ⟨k + limit - 1, by omega⟩
      have hnext : cursorAt Post.createdAt (exchSort Post.createdAt state) (k + limit)
          = some (.goString (Post.createdAt
              ((exchSort Post.createdAt state).getD e default))) := by
        rw [he]; rfl
      have hrec := ih (k + limit) (Nat.le_of_lt h) (by omega)
      rw [hnext] at hrec
      simp only [hnext, hrec, Option.map_some']
      congr 1
      rw [← List.drop_drop]
      exact List.take_append_drop limit _
    · rw [if_neg h]

theorem pgPaginate_from (table : List Post) (limit : Nat)
    (hn : (table.map Post.createdAt).Nodup) (hlim : 1 ≤ limit) :
    ∀ fuel k, k ≤ (exchSort Post.createdAt table).length →
      (exchSort Post.createdAt table).length - k < fuel →
      pgPaginate table limit fuel
          (cursorAt Post.createdAt (exchSort Post.createdAt table) k)
        = some ((exchSort Post.createdAt table).drop k) := by
  intro fuel
  induction fuel with
  | zero => intro k _ hfuel; omega
  | succ fuel ih =>
    intro k hk hfuel
    simp only [pgPaginate]
    rw [pgListPosts_at table limit k hn hlim hk]
    by_cases h : k + limit < (exchSort Post.createdAt table).length
    · rw [if_pos h]
      obtain ⟨e, he⟩ : ∃ e, k + limit = e + 1 := ⟨k + limit - 1, by omega⟩
      have hnext : cursorAt Post.createdAt (exchSort Post.createdAt table) (k + limit)
          = some (.goString (Post.createdAt
              ((exchSort Post.createdAt table).getD e default))) := by
        rw [he]; rfl
      have hrec := ih (k + limit) (Nat.le_of_lt h) (by omega)
      rw [hnext] at hrec
      simp only [hnext, hrec, Option.map_some']
      congr 1
      rw [← List.drop_drop]
      exact List.take_append_drop limit _
    · rw [if_neg h]

/-! ## Claim theorems -/

/-- C2: for every set of created posts with pairwise-distinct creation
timestamps and every limit at least 1, repeatedly calling `ListPosts`
starting from a null cursor and following the returned `nextCursor` yields
pages whose concatenation is a permutation of the stored posts (no
duplicates, no omissions) in strictly descending creation-timestamp
order — and the two storage backends produce the same concatenation. -/
theorem c2_pagination_roundtrip (state : List Post) (limit : Nat)
    (hn : (state.map Post.createdAt).Nodup) (hlim : 1 ≤ limit) :
    ∃ r, memPaginate state limit (state.length + 1) none = some r ∧
      pgPaginate state limit (state.length + 1) none = some r ∧
      List.Perm r state ∧
      r.Pairwise (fun a b => Post.createdAt b < Post.createdAt a) := by
  have hlen : (exchSort Post.createdAt state).length = state.length :=
    (exchSort_perm Post.createdAt state).length_eq
  refine ⟨exchSort Post.createdAt state, ?_, ?_,
    exchSort_perm Post.createdAt state, exchSort_pairwise_lt Post.createdAt state hn⟩
  · have := memPaginate_from state limit hn hlim (state.length + 1) 0
      (Nat.zero_le _) (by omega)
    simpa [cursorAt] using this
  · have := pgPaginate_from state limit hn hlim (state.length + 1) 0
      (Nat.zero_le _) (by omega)
    simpa [cursorAt] using this

/-- Witness for C2 at a concrete store of three posts and limit 2. -/
theorem c2_pagination_roundtrip_witness :
    ∃ r, memPaginate [⟨"p1", "t", "c", "u", true, 5⟩, ⟨"p2", "t", "c", "u", true, 9⟩,
        ⟨"p3", "t", "c", "u", true, 7⟩] 2 4 none = some r ∧
      pgPaginate [⟨"p1", "t", "c", "u", true, 5⟩, ⟨"p2", "t", "c", "u", true, 9⟩,
        ⟨"p3", "t", "c", "u", true, 7⟩] 2 4 none = some r ∧
      List.Perm r [⟨"p1", "t", "c", "u", true, 5⟩, ⟨"p2", "t", "c", "u", true, 9⟩,
        ⟨"p3", "t", "c", "u", true, 7⟩] ∧
      r.Pairwise (fun a b => Post.createdAt b < Post.createdAt a) :=
  c2_pagination_roundtrip
    [⟨"p1", "t", "c", "u", true, 5⟩, ⟨"p2", "t", "c", "u", true, 9⟩,
      ⟨"p3", "t", "c", "u", true, 7⟩] 2 (by decide) (by decide)

/-- C3 counterexample: with two stored posts sharing creation timestamp 5,
the page returned by the in-memory `ListPosts` for the cursor rendered
from that timestamp contains a post whose timestamp equals — is not
strictly older than — the cursor's timestamp. -/
theorem c3_counterexample :
    memListPosts [⟨"p1", "t", "c", "u", true, 5⟩, ⟨"p2", "t", "c", "u", true, 5⟩]
        10 (some (.goString 5))
      = some ⟨[⟨"p2", "t", "c", "u", true, 5⟩], 2, none⟩ ∧
    ¬ (Post.createdAt ⟨"p2", "t", "c", "u", true, 5⟩ < Cursor.time (.goString 5)) := by
  constructor
  · rfl
  · decide

/-- When no stored element's `String()` rendering equals the cursor token,
the scan of part_001:77-82 finds nothing. -/
theorem findCursorStart_eq_none (key : α → Nat) (cur : Cursor) (l : List α)
    (h : ∀ a ∈ l, Cursor.goString (key a) ≠ cur) :
    findCursorStart key cur l = none := by
  induction l with
  | nil => rfl
  | cons x xs ih =>
    simp only [findCursorStart]
    rw [if_neg (h x (List.mem_cons_self x xs)), ih]
    · rfl
    · intro a ha
      exact h a (List.mem_cons_of_mem x ha)

/-- C3 (amended): under pairwise-distinct creation timestamps, a
`ListPosts` page returned for a cursor rendered from a stored timestamp
contains only strictly older posts (in-memory backend; the relational
backend filters strictly older for any cursor); a cursor matching no
stored sort key is deterministically ignored by the in-memory backend —
the call behaves as if the cursor were null; and `totalCount` of every
page equals the size of the full unfiltered post set on both backends. -/
theorem c3_cursor_filtering (state : List Post) (limit : Nat)
    (hn : (state.map Post.createdAt).Nodup) (hlim : 1 ≤ limit) :
    (∀ t ∈ state.map Post.createdAt, ∀ page,
      memListPosts state limit (some (.goString t)) = some page →
        ∀ p ∈ page.posts, p.createdAt < t) ∧
    (∀ cur, (∀ t ∈ state.map Post.createdAt, Cursor.goString t ≠ cur) →
      memListPosts state limit (some cur) = memListPosts state limit none) ∧
    (∀ cursor page, memListPosts state limit cursor = some page →
      page.totalCount = state.length) ∧
    (∀ cur page, pgListPosts state limit (some cur) = some page →
      ∀ p ∈ page.posts, p.createdAt < cur.time) ∧
    (∀ cursor page, pgListPosts state limit cursor = some page →
      page.totalCount = state.length) := by
  have hperm := exchSort_perm Post.createdAt state
  have hlen : (exchSort Post.createdAt state).length = state.length := hperm.length_eq
  have hnl : ((exchSort Post.createdAt state).map Post.createdAt).Nodup :=
    (hperm.map Post.createdAt).nodup_iff.2 hn
  have hsl := exchSort_pairwise_lt Post.createdAt state hn
  refine ⟨?_, ?_, ?_, ?_, ?_⟩
  · intro t ht page hpage p hp
    have htl : t ∈ (exchSort Post.createdAt state).map Post.createdAt :=
      ((hperm.map Post.createdAt).mem_iff).2 ht
    obtain ⟨a, hal, hat⟩ := List.mem_map.1 htl
    obtain ⟨i, hi, hia⟩ := List.mem_iff_getElem.1 hal
    have hcur : (some (Cursor.goString t) : Option Cursor)
        = cursorAt Post.createdAt (exchSort Post.createdAt state) (i + 1) := by
      simp only [cursorAt]
      rw [List.getD_eq_getElem _ default hi, hia, hat]
    rw [hcur, memListPosts_at state limit (i + 1) hn hlim hi] at hpage
    have hmem : p ∈ (exchSort Post.createdAt state).drop (i + 1) := by
      by_cases h : i + 1 + limit < (exchSort Post.createdAt state).length
      · rw [if_pos h] at hpage
        cases hpage
        exact List.mem_of_mem_take hp
      · rw [if_neg h] at hpage
        cases hpage
        exact hp
    obtain ⟨m, hm, hmp⟩ := List.mem_iff_getElem.1 hmem
    have hml : i + 1 + m < (exchSort Post.createdAt state).length := by
      have := hm
      simp only [List.length_drop] at this
      omega
    have hgd : ((exchSort Post.createdAt state).drop (i + 1))[m]
        = (exchSort Post.createdAt state)[i + 1 + m] :=
      List.getElem_drop _
    have hlt := pairwise_lt_getElem Post.createdAt _ hsl i (i + 1 + m) hi hml (by omega)
    rw [← hat, ← hia, ← hmp, hgd]
    exact hlt
  · intro cur hcur
    have hnone : findCursorStart Post.createdAt cur (exchSort Post.createdAt state)
        = none := by
      apply findCursorStart_eq_none
      intro a ha
      exact hcur (Post.createdAt a)
        (((hperm.map Post.createdAt).mem_iff).1 (List.mem_map_of_mem _ ha))
    simp only [memListPosts, pageCore, pageStart, hnone]
  · intro cursor page hpage
    simp only [memListPosts] at hpage
    rcases hcore : pageCore Post.createdAt (exchSort Post.createdAt state) limit cursor
      with _ | ⟨result, nextCursor⟩
    · rw [hcore] at hpage; cases hpage
    · rw [hcore] at hpage
      cases hpage
      exact hlen
  · intro cur page hpage p hp
    simp only [pgListPosts] at hpage
    rcases hnext : pgNext Post.createdAt Cursor.goString
        ((exchSort Post.createdAt
          (state.filter fun q => cursorTest (some cur) q.createdAt)).take (limit + 1))
        limit with _ | ⟨posts, nextCursor⟩
    · rw [hnext] at hpage; cases hpage
    · rw [hnext] at hpage
      cases hpage
      have hsub : p ∈ exchSort Post.createdAt
          (state.filter fun q => cursorTest (some cur) q.createdAt) := by
        simp only [pgNext] at hnext
        split at hnext
        · match limit, hnext with
          | lim + 1, hnext =>
            cases hnext
            exact List.mem_of_mem_take (List.mem_of_mem_take hp)
        · cases hnext
          exact List.mem_of_mem_take hp
      have hfil : p ∈ state.filter fun q => cursorTest (some cur) q.createdAt :=
        (exchSort_perm Post.createdAt _).subset hsub
      have := (List.mem_filter.1 hfil).2
      simpa [cursorTest] using this
  · intro cursor page hpage
    simp only [pgListPosts] at hpage
    rcases hnext : pgNext Post.createdAt Cursor.goString
        ((exchSort Post.createdAt
          (state.filter fun q => cursorTest cursor q.createdAt)).take (limit + 1))
        limit with _ | ⟨posts, nextCursor⟩
    · rw [hnext] at hpage; cases hpage
    · rw [hnext] at hpage
      cases hpage
      rfl

/-- Witness for C3's amended theorem at a concrete two-post store: the
page for the cursor at timestamp 9 holds the older post only. -/
theorem c3_cursor_filtering_witness :
    (⟨"p1", "t", "c", "u", true, 5⟩ : Post).createdAt < 9 :=
  (c3_cursor_filtering
    [⟨"p1", "t", "c", "u", true, 5⟩, ⟨"p2", "t", "c", "u", true, 9⟩] 1
    (by decide) (by decide)).1 9 (by decide)
    ⟨[⟨"p1", "t", "c", "u", true, 5⟩], 2, none⟩ rfl
    ⟨"p1", "t", "c", "u", true, 5⟩ (by decide)

/-- C4 counterexample: on identical comment stores (one post, two
comments), the two backends return the same page and total count but
render the continuation cursor in different token formats —
`time.Time.String()` in memory (part_001:174) versus RFC3339 in postgres
(postrges.go:208) — so the observable results are not identical. -/
theorem c4_counterexample :
    MemoryStorage.getComments
        ⟨[("p1", ⟨"p1", "t", "c", "u", true, 1⟩)],
         [("p1", [⟨"c1", "p1", none, "u", "hi", 5⟩, ⟨"c2", "p1", none, "u", "hi", 9⟩])]⟩
        "p1" none 1 none
      = some ⟨[⟨"c2", "p1", none, "u", "hi", 9⟩], 2, some (.goString 9)⟩ ∧
    pgGetComments [⟨"c1", "p1", none, "u", "hi", 5⟩, ⟨"c2", "p1", none, "u", "hi", 9⟩]
        "p1" none 1 none
      = some ⟨[⟨"c2", "p1", none, "u", "hi", 9⟩], 2, some (.rfc3339 9)⟩ ∧
    (some (Cursor.goString 9) : Option Cursor) ≠ some (.rfc3339 9) := by
  refine ⟨rfl, rfl, by decide⟩

/-- The conjunctive row filter of the postgres comments queries
decomposes into the post filter followed by the parent filter. -/
theorem filter_sel_decomp (table : List Comment) (postID : String)
    (parentID : Option String) :
    (table.filter fun c =>
        decide (c.postID = postID) && decide (c.parentID = parentID))
      = (table.filter fun c => decide (c.postID = postID)).filter
          (fun c => decide (c.parentID = parentID)) := by
  rw [List.filter_filter]
  exact (List.filter_congr fun a _ => Bool.and_comm _ _).symm

/-- C4 (amended): the backends agree on `ListPosts` — identical pages,
total counts and cursor tokens — for the null cursor and every
self-issued cursor, under pairwise-distinct timestamps and a positive
limit.  For `GetComments` (first page, null cursor) they agree on the
comment sequence, the total count, and the presence and timestamp of the
next cursor, but render that cursor in different token formats
(`goString` versus `rfc3339`), so bit-for-bit agreement fails there. -/
theorem c4_backend_agreement :
    (∀ (posts : List Post) (limit k : Nat),
      (posts.map Post.createdAt).Nodup → 1 ≤ limit →
      k ≤ (exchSort Post.createdAt posts).length →
      pgListPosts posts limit
          (cursorAt Post.createdAt (exchSort Post.createdAt posts) k)
        = memListPosts posts limit
            (cursorAt Post.createdAt (exchSort Post.createdAt posts) k)) ∧
    (∀ (st : MemoryStorage) (table : List Comment) (postID : String)
        (parentID : Option String) (limit : Nat),
      (∀ p, (lookupKey p st.comments).getD []
        = table.filter fun c => decide (c.postID = p)) →
      ∃ r : Option (List Comment × Nat × Option Timestamp),
        st.getComments postID parentID limit none
          = r.map (fun x => ⟨x.1, x.2.1, x.2.2.map Cursor.goString⟩) ∧
        pgGetComments table postID parentID limit none
          = r.map (fun x => ⟨x.1, x.2.1, x.2.2.map Cursor.rfc3339⟩)) := by
  constructor
  · intro posts limit k hn hlim hk
    rw [pgListPosts_at posts limit k hn hlim hk,
      memListPosts_at posts limit k hn hlim hk]
    have hlen : (exchSort Post.createdAt posts).length = posts.length :=
      (exchSort_perm Post.createdAt posts).length_eq
    by_cases h : k + limit < (exchSort Post.createdAt posts).length
    · rw [if_pos h, if_pos h, hlen]
    · rw [if_neg h, if_neg h, hlen]
  · intro st table postID parentID limit hrel
    have hseltest : (table.filter fun c =>
        (decide (c.postID = postID) && decide (c.parentID = parentID))
          && cursorTest none c.createdAt)
        = table.filter fun c =>
            decide (c.postID = postID) && decide (c.parentID = parentID) := by
      apply List.filter_congr
      intro a _
      simp [cursorTest]
    rcases hlk : lookupKey postID st.comments with _ | commentsList
    · have hfil : table.filter (fun c => decide (c.postID = postID)) = [] := by
        have := hrel postID
        rw [hlk] at this
        exact this.symm
      have hsel : (table.filter fun c =>
          decide (c.postID = postID) && decide (c.parentID = parentID)) = [] := by
        rw [filter_sel_decomp, hfil]
        rfl
      refine ⟨some ([], 0, none), ?_, ?_⟩
      · simp only [MemoryStorage.getComments, hlk]
        rfl
      · simp only [pgGetComments, hseltest, hsel]
        rfl
    · have hcl : commentsList = table.filter fun c => decide (c.postID = postID) := by
        have := hrel postID
        rw [hlk] at this
        simpa using this
      have hfiltered : commentsList.filter (fun c => decide (c.parentID = parentID))
          = table.filter fun c =>
              decide (c.postID = postID) && decide (c.parentID = parentID) := by
        rw [hcl, ← filter_sel_decomp]
      have hslen : (exchSort Comment.createdAt
            (commentsList.filter fun c => decide (c.parentID = parentID))).length
          = (commentsList.filter fun c => decide (c.parentID = parentID)).length :=
        (exchSort_perm Comment.createdAt _).length_eq
      match limit with
      | 0 =>
        by_cases hlen0 : (exchSort Comment.createdAt
            (commentsList.filter fun c => decide (c.parentID = parentID))).length = 0
        · refine ⟨some ([], (commentsList.filter
              fun c => decide (c.parentID = parentID)).length, none), ?_, ?_⟩
          · simp only [MemoryStorage.getComments, hlk, pageCore, pageStart]
            rw [List.length_eq_zero.1 hlen0]
            rfl
          · simp only [pgGetComments, hseltest, ← hfiltered, pgNext]
            rw [List.length_eq_zero.1 hlen0]
            simp only [List.take_nil, List.length_nil]
            rw [if_neg (by omega)]
            rfl
        · refine ⟨none, ?_, ?_⟩
          · simp only [MemoryStorage.getComments, hlk, pageCore, pageStart]
            rw [if_pos (by omega : min (0 + 0) (exchSort Comment.createdAt
              (commentsList.filter fun c => decide (c.parentID = parentID))).length
                < (exchSort Comment.createdAt
              (commentsList.filter fun c => decide (c.parentID = parentID))).length)]
            rw [(by omega : (0 + 0) ⊓ (exchSort Comment.createdAt
              (commentsList.filter fun c => decide (c.parentID = parentID))).length = 0)]
            rfl
          · simp only [pgGetComments, hseltest, ← hfiltered, pgNext]
            rw [if_pos ?_]
            · rfl
            · simp only [List.length_take]
              omega
      | lim + 1 =>
        rw [show (MemoryStorage.getComments st postID parentID (lim + 1) none)
            = match pageCore Comment.createdAt
                (exchSort Comment.createdAt
                  (commentsList.filter fun c => decide (c.parentID = parentID)))
                (lim + 1) none with
              | none => none
              | some (result, nextCursor) =>
                some ⟨result, (commentsList.filter
                  fun c => decide (c.parentID = parentID)).length, nextCursor⟩
          from by simp only [MemoryStorage.getComments, hlk]]
        rw [pageCore_spec Comment.createdAt _ (lim + 1) none (by omega)]
        have hps0 : pageStart Comment.createdAt
            (exchSort Comment.createdAt
              (commentsList.filter fun c => decide (c.parentID = parentID))) none
            = 0 := rfl
        rw [hps0]
        by_cases h : 0 + (lim + 1) < (exchSort Comment.createdAt
            (commentsList.filter fun c => decide (c.parentID = parentID))).length
        · rw [if_pos h]
          refine ⟨some ((exchSort Comment.createdAt
              (commentsList.filter fun c => decide (c.parentID = parentID))).take (lim + 1),
            (commentsList.filter fun c => decide (c.parentID = parentID)).length,
            some (Comment.createdAt ((exchSort Comment.createdAt
              (commentsList.filter fun c => decide (c.parentID = parentID))).getD lim
                default))), ?_, ?_⟩
          · simp only [cursorAt, List.drop_zero, Option.map_some', Nat.zero_add,
              Nat.add_eq]
          · simp only [pgGetComments, hseltest, ← hfiltered, pgNext]
            have hrowlen : ((exchSort Comment.createdAt
                (commentsList.filter fun c => decide (c.parentID = parentID))).take
                  (lim + 1 + 1)).length = lim + 1 + 1 := by
              simp only [List.length_take]
              omega
            rw [if_pos (by rw [hrowlen]; omega)]
            have htt : ((exchSort Comment.createdAt
                (commentsList.filter fun c => decide (c.parentID = parentID))).take
                  (lim + 1 + 1)).take (lim + 1)
                = (exchSort Comment.createdAt
                    (commentsList.filter fun c => decide (c.parentID = parentID))).take
                      (lim + 1) := by
              rw [List.take_take]
              congr 1
              omega
            have hidx : lim < ((exchSort Comment.createdAt
                (commentsList.filter fun c => decide (c.parentID = parentID))).take
                  (lim + 1 + 1)).length := by
              rw [hrowlen]; omega
            have hidx2 : lim < (exchSort Comment.createdAt
                (commentsList.filter fun c => decide (c.parentID = parentID))).length := by
              omega
            have hgd : ((exchSort Comment.createdAt
                (commentsList.filter fun c => decide (c.parentID = parentID))).take
                  (lim + 1 + 1)).getD lim default
                = (exchSort Comment.createdAt
                    (commentsList.filter fun c => decide (c.parentID = parentID))).getD
                      lim default := by
              rw [List.getD_eq_getElem _ default hidx,
                List.getD_eq_getElem _ default hidx2]
              exact List.getElem_take _
            rw [htt, hgd]
            rfl
        · rw [if_neg h]
          refine ⟨some ((exchSort Comment.createdAt
              (commentsList.filter fun c => decide (c.parentID = parentID))),
            (commentsList.filter fun c => decide (c.parentID = parentID)).length,
            none), ?_, ?_⟩
          · simp only [List.drop_zero, Option.map_some', Option.map_none']
          · simp only [pgGetComments, hseltest, ← hfiltered, pgNext]
            have hrows : (exchSort Comment.createdAt
                (commentsList.filter fun c => decide (c.parentID = parentID))).take
                  (lim + 1 + 1)
                = exchSort Comment.createdAt
                    (commentsList.filter fun c => decide (c.parentID = parentID)) :=
              List.take_of_length_le (by omega)
            rw [hrows, if_neg (by omega)]
            rfl

/-- Witness for C4's amended theorem: `ListPosts` agreement at a concrete
two-post store with limit 1 and the null cursor. -/
theorem c4_backend_agreement_witness :
    pgListPosts [⟨"p1", "t", "c", "u", true, 5⟩, ⟨"p2", "t", "c", "u", true, 9⟩] 1
        (cursorAt Post.createdAt
          (exchSort Post.createdAt
            [⟨"p1", "t", "c", "u", true, 5⟩, ⟨"p2", "t", "c", "u", true, 9⟩]) 0)
      = memListPosts [⟨"p1", "t", "c", "u", true, 5⟩, ⟨"p2", "t", "c", "u", true, 9⟩] 1
          (cursorAt Post.createdAt
            (exchSort Post.createdAt
              [⟨"p1", "t", "c", "u", true, 5⟩, ⟨"p2", "t", "c", "u", true, 9⟩]) 0) :=
  c4_backend_agreement.1
    [⟨"p1", "t", "c", "u", true, 5⟩, ⟨"p2", "t", "c", "u", true, 9⟩] 1 0
    (by decide) (by decide) (by decide)

/-- C5 counterexample: a failing count query inside the postgres
`GetComments` is not surfaced — the call succeeds with an empty page
(postrges.go:161-169). -/
theorem c5_counterexample :
    pgGetCommentsCtl (.error "connection reset") (.ok []) 10
      = .ok (some ⟨[], 0, none⟩) := rfl

/-- C5 (amended): in `PostgresStorage.ListPosts` every backend failure —
count query, page query, row scan — is returned to the caller wrapped
with operation context; in `PostgresStorage.GetComments` the same three
failures are swallowed and converted into a successful empty page (with
the already-obtained total count when the count query succeeded). -/
theorem c5_error_propagation :
    (∀ (e : String) (q : Except String (List (Except String Post))) (limit : Nat),
      pgListPostsCtl (.error e) q limit = .error ("failed to count posts: " ++ e)) ∧
    (∀ (n : Nat) (e : String) (limit : Nat),
      pgListPostsCtl (.ok n) (.error e) limit
        = .error ("failed to query posts: " ++ e)) ∧
    (∀ (n : Nat) (raw : List (Except String Post)) (e : String) (limit : Nat),
      scanAll raw = .error e →
      pgListPostsCtl (.ok n) (.ok raw) limit
        = .error ("failed to scan post: " ++ e)) ∧
    (∀ (e : String) (q : Except String (List (Except String Comment))) (limit : Nat),
      pgGetCommentsCtl (.error e) q limit = .ok (some ⟨[], 0, none⟩)) ∧
    (∀ (n : Nat) (e : String) (limit : Nat),
      pgGetCommentsCtl (.ok n) (.error e) limit = .ok (some ⟨[], n, none⟩)) ∧
    (∀ (n : Nat) (raw : List (Except String Comment)) (e : String) (limit : Nat),
      scanAll raw = .error e →
      pgGetCommentsCtl (.ok n) (.ok raw) limit = .ok (some ⟨[], n, none⟩)) := by
  refine ⟨fun e q limit => rfl, fun n e limit => rfl, ?_,
    fun e q limit => rfl, fun n e limit => rfl, ?_⟩
  · intro n raw e limit hscan
    simp only [pgListPostsCtl, hscan]
  · intro n raw e limit hscan
    simp only [pgGetCommentsCtl, hscan]

/-- Witness for C5's amended theorem: a row whose scan fails makes
`ListPosts` surface the wrapped error while `GetComments` still reports
success. -/
theorem c5_error_propagation_witness :
    pgListPostsCtl (.ok 3) (.ok [.error "bad row"]) 2
        = .error ("failed to scan post: " ++ "bad row") ∧
    pgGetCommentsCtl (.ok 3) (.ok [.error "bad row"]) 2
        = .ok (some ⟨[], 3, none⟩) :=
  ⟨(c5_error_propagation.2.2.1) 3 [.error "bad row"] "bad row" 2 rfl,
   (c5_error_propagation.2.2.2.2.2) 3 [.error "bad row"] "bad row" 2 rfl⟩

/-- C6: `CreateComment` publishes to the notification hub exactly when the
storage write succeeded: on any failure (validation, post lookup,
comments disabled, store error) the registry is untouched and no channel
receives anything; on success the returned registry is the publication of
the created comment, performed before the comment is handed back. -/
theorem c6_publish_after_persist (getPostRes : Except String Post)
    (createRes : Except String Unit) (reg : Registry) (postID : String)
    (parentID : Option String) (content : String) (userIDCtx : Option String)
    (newID : String) (now : Timestamp) :
    (∀ c reg',
      createCommentCtl getPostRes createRes reg postID parentID content
          userIDCtx newID now = (.ok c, reg') →
        createRes = .ok () ∧
        c = ⟨newID, postID, parentID, userIDCtx.getD "user1", content, now⟩ ∧
        reg' = publish reg postID c) ∧
    (∀ e reg',
      createCommentCtl getPostRes createRes reg postID parentID content
          userIDCtx newID now = (.error e, reg') →
        reg' = reg) := by
  constructor
  · intro c reg' h
    simp only [createCommentCtl] at h
    by_cases hlen : content.length > 2000
    · rw [if_pos hlen] at h
      simp at h
    · rw [if_neg hlen] at h
      rcases getPostRes with e | post
      · simp at h
      · simp only at h
        by_cases hac : post.allowComments
        · rw [if_neg (by simp [hac])] at h
          rcases createRes with e2 | u
          · simp at h
          · simp only at h
            obtain ⟨h1, h2⟩ := Prod.mk.injEq .. ▸ h
            have hc := Except.ok.inj h1
            exact ⟨rfl, hc.symm, by rw [← h2, hc]⟩
        · rw [if_pos (by simp [hac])] at h
          simp at h
  · intro e reg' h
    simp only [createCommentCtl] at h
    by_cases hlen : content.length > 2000
    · rw [if_pos hlen] at h
      exact (Prod.mk.injEq .. ▸ h).2.symm
    · rw [if_neg hlen] at h
      rcases getPostRes with e1 | post
      · simp only at h
        exact (Prod.mk.injEq .. ▸ h).2.symm
      · simp only at h
        by_cases hac : post.allowComments
        · rw [if_neg (by simp [hac])] at h
          rcases createRes with e2 | u
          · simp only at h
            exact (Prod.mk.injEq .. ▸ h).2.symm
          · simp at h
        · rw [if_pos (by simp [hac])] at h
          exact (Prod.mk.injEq .. ▸ h).2.symm

/-- Witness for C6 at a concrete successful call: one subscribed empty
channel receives the created comment. -/
theorem c6_publish_after_persist_witness :
    Except.ok () = (.ok () : Except String Unit) ∧
    (⟨"c9", "p1", none, "user1", "hi", 12⟩ : Comment)
      = ⟨"c9", "p1", none, (none : Option String).getD "user1", "hi", 12⟩ ∧
    [("p1", [⟨7, some (⟨"c9", "p1", none, "user1", "hi", 12⟩ : Comment)⟩])]
      = publish [("p1", [⟨7, none⟩])] "p1" ⟨"c9", "p1", none, "user1", "hi", 12⟩ :=
  (c6_publish_after_persist (.ok ⟨"p1", "t", "c", "u", true, 1⟩) (.ok ())
    [("p1", [⟨7, none⟩])] "p1" none "hi" none "c9" 12).1
    ⟨"c9", "p1", none, "user1", "hi", 12⟩
    [("p1", [⟨7, some ⟨"c9", "p1", none, "user1", "hi", 12⟩⟩])] rfl

/-- A 2001-character comment body, exceeding the validation limit. -/
def longContent : String := String.mk (List.replicate 2001 'a')

/-- C7 counterexample: on a post whose comment-allowed flag is false, a
2001-character comment fails with the content-length validation error,
not with `CommentsDisabled` — the length check at resolver.go:265-268
runs before the post is even fetched. -/
theorem c7_counterexample :
    MemoryStorage.getPost ⟨[("p1", ⟨"p1", "t", "c", "u", false, 1⟩)], []⟩ "p1"
        = .ok ⟨"p1", "t", "c", "u", false, 1⟩ ∧
    (⟨"p1", "t", "c", "u", false, 1⟩ : Post).allowComments = false ∧
    (createCommentMem ⟨[("p1", ⟨"p1", "t", "c", "u", false, 1⟩)], []⟩ [] "p1" none
        longContent none "c1" 7).1
      = .error "comment content exceeds 2000 characters" ∧
    ("comment content exceeds 2000 characters" : String)
      ≠ "comments are disabled for this post" := by
  refine ⟨rfl, rfl, ?_, by decide⟩
  have hlen : longContent.length > 2000 := by
    have : longContent.length = 2001 := by
      rw [longContent, String.length_mk, List.length_replicate]
    omega
  simp only [createCommentMem, if_pos hlen]

/-- C7 (amended): on a post whose comment-allowed flag is false,
`CreateComment` always fails — with `CommentsDisabled` whenever the
content passes the 2000-character validation, and with the validation
error when it does not — and in both cases neither the storage state nor
the notification registry changes, so nothing is persisted or
published. -/
theorem c7_comments_disabled (st : MemoryStorage) (reg : Registry)
    (postID : String) (parentID : Option String) (content : String)
    (userIDCtx : Option String) (newID : String) (now : Timestamp) (post : Post)
    (hpost : st.getPost postID = .ok post) (hdis : post.allowComments = false) :
    createCommentMem st reg postID parentID content userIDCtx newID now
      = (.error (if content.length > 2000 then "comment content exceeds 2000 characters"
          else "comments are disabled for this post"), st, reg) := by
  by_cases hlen : content.length > 2000
  · simp only [createCommentMem, if_pos hlen]
  · simp only [createCommentMem, if_neg hlen, hpost, hdis, Bool.not_false, if_true]

/-- Witness for C7's amended theorem at a concrete disabled post and a
short comment. -/
theorem c7_comments_disabled_witness :
    createCommentMem ⟨[("p1", ⟨"p1", "t", "c", "u", false, 1⟩)], []⟩ [] "p1" none
        "hi" none "c1" 7
      = (.error (if ("hi" : String).length > 2000
            then "comment content exceeds 2000 characters"
            else "comments are disabled for this post"),
          ⟨[("p1", ⟨"p1", "t", "c", "u", false, 1⟩)], []⟩, []) :=
  c7_comments_disabled ⟨[("p1", ⟨"p1", "t", "c", "u", false, 1⟩)], []⟩ [] "p1" none
    "hi" none "c1" 7 ⟨"p1", "t", "c", "u", false, 1⟩ rfl rfl

/-- C9 counterexample: `ListPosts` with limit 0 and one stored post
panics on both backends — the memory backend evaluates `posts[endIdx-1]`
with `endIdx = 0` (part_001:95) and the postgres backend `posts[limit-1]`
with `limit = 0` (postrges.go:126), both out of range. -/
theorem c9_counterexample :
    memListPosts [⟨"p1", "t", "c", "u", true, 5⟩] 0 none = none ∧
    pgListPosts [⟨"p1", "t", "c", "u", true, 5⟩] 0 none = none :=
  ⟨rfl, rfl⟩

/-- C9 (amended): with any positive limit, `ListPosts` completes without
out-of-range indexing on both backends, for every store state and every
cursor; with limit 0 and a non-empty store both backends panic. -/
theorem c9_limit_positive_safe (state : List Post) (limit : Nat)
    (cursor : Option Cursor) (hlim : 1 ≤ limit) :
    (memListPosts state limit cursor).isSome ∧
    (pgListPosts state limit cursor).isSome := by
  obtain ⟨lim, rfl⟩ : ∃ lim, limit = lim + 1 := ⟨limit - 1, by omega⟩
  constructor
  · simp only [memListPosts]
    rw [pageCore_spec Post.createdAt _ (lim + 1) cursor (by omega)]
    by_cases h : pageStart Post.createdAt (exchSort Post.createdAt state) cursor
        + (lim + 1) < (exchSort Post.createdAt state).length
    · rw [if_pos h]
      rfl
    · rw [if_neg h]
      rfl
  · simp only [pgListPosts, pgNext]
    split
    · rename_i heq
      split at heq <;> simp at heq
    · rfl

/-- Witness for C9's amended theorem: limit 1 on a one-post store. -/
theorem c9_limit_positive_safe_witness :
    (memListPosts [⟨"p1", "t", "c", "u", true, 5⟩] 1 none).isSome ∧
    (pgListPosts [⟨"p1", "t", "c", "u", true, 5⟩] 1 none).isSome :=
  c9_limit_positive_safe [⟨"p1", "t", "c", "u", true, 5⟩] 1 none (by decide)

/-- C10: the in-memory `GetComments` on a post identifier with no stored
comments — a missing map entry, which covers posts that do not exist at
all, or an entry holding the empty slice — returns a successful empty
page: no comments, total count 0, no cursor, and no error or panic. -/
theorem c10_no_comments_empty_page (st : MemoryStorage) (postID : String)
    (parentID : Option String) (limit : Nat) (cursor : Option Cursor)
    (h : lookupKey postID st.comments = none
      ∨ lookupKey postID st.comments = some []) :
    st.getComments postID parentID limit cursor = some ⟨[], 0, none⟩ := by
  rcases h with h | h
  · simp only [MemoryStorage.getComments, h]
  · simp only [MemoryStorage.getComments, h, List.filter_nil]
    rcases cursor with _ | cur
    · simp [pageCore, pageStart, exchSort, exchSortAux]
    · simp [pageCore, pageStart, findCursorStart, exchSort, exchSortAux]

/-- Witness for C10 on an empty storage. -/
theorem c10_no_comments_empty_page_witness :
    MemoryStorage.getComments ⟨[], []⟩ "p1" none 3 none = some ⟨[], 0, none⟩ :=
  c10_no_comments_empty_page ⟨[], []⟩ "p1" none 3 none (Or.inl rfl)

/-! ## Registry lemmas for the notification hub -/

theorem lookupKey_eq_none_of_not_mem (k : String) (m : List (String × β))
    (h : k ∉ m.map Prod.fst) : lookupKey k m = none := by
  induction m with
  | nil => rfl
  | cons e rest ih =>
    obtain ⟨ek, ev⟩ := e
    simp only [List.map_cons, List.mem_cons] at h
    push_neg at h
    simp only [lookupKey]
    rw [if_neg (fun he => h.1 he.symm), ih h.2]

theorem lookupKey_setEntry_self (k : String) (v : β) (m : List (String × β)) :
    lookupKey k (setEntry k v m) = some v := by
  induction m with
  | nil => simp [setEntry, lookupKey]
  | cons e rest ih =>
    obtain ⟨ek, ev⟩ := e
    by_cases he : ek = k
    · simp only [setEntry, if_pos he, lookupKey, if_pos he]
    · simp only [setEntry, if_neg he, lookupKey, if_neg he]
      exact ih

theorem lookupKey_setEntry_ne (k k' : String) (v : β) (m : List (String × β))
    (h : k' ≠ k) : lookupKey k' (setEntry k v m) = lookupKey k' m := by
  induction m with
  | nil =>
    simp only [setEntry, lookupKey]
    rw [if_neg (fun he => h he.symm)]
  | cons e rest ih =>
    obtain ⟨ek, ev⟩ := e
    by_cases he : ek = k
    · simp only [setEntry, if_pos he, lookupKey]
      rw [if_neg (by rw [he]; exact fun x => h x.symm),
        if_neg (by rw [he]; exact fun x => h x.symm)]
    · simp only [setEntry, if_neg he, lookupKey]
      by_cases he' : ek = k'
      · rw [if_pos he', if_pos he']
      · rw [if_neg he', if_neg he']
        exact ih

theorem lookupKey_dropEntry_ne (k k' : String) (m : List (String × β))
    (h : k' ≠ k) : lookupKey k' (dropEntry k m) = lookupKey k' m := by
  induction m with
  | nil => rfl
  | cons e rest ih =>
    obtain ⟨ek, ev⟩ := e
    by_cases he : ek = k
    · simp only [dropEntry, if_pos he, lookupKey]
      rw [if_neg (by rw [he]; exact fun x => h x.symm)]
    · simp only [dropEntry, if_neg he, lookupKey]
      by_cases he' : ek = k'
      · rw [if_pos he', if_pos he']
      · rw [if_neg he', if_neg he']
        exact ih

theorem lookupKey_dropEntry_self (k : String) (m : List (String × β))
    (hnd : (m.map Prod.fst).Nodup) : lookupKey k (dropEntry k m) = none := by
  induction m with
  | nil => rfl
  | cons e rest ih =>
    obtain ⟨ek, ev⟩ := e
    simp only [List.map_cons, List.nodup_cons] at hnd
    by_cases he : ek = k
    · simp only [dropEntry, if_pos he]
      apply lookupKey_eq_none_of_not_mem
      rw [← he]
      exact hnd.1
    · simp only [dropEntry, if_neg he, lookupKey, if_neg he]
      exact ih hnd.2

theorem keys_setEntry_subset (k : String) (v : β) (m : List (String × β)) :
    ∀ x ∈ (setEntry k v m).map Prod.fst, x = k ∨ x ∈ m.map Prod.fst := by
  induction m with
  | nil =>
    intro x hx
    simp only [setEntry, List.map_cons, List.map_nil, List.mem_singleton] at hx
    exact Or.inl hx
  | cons e rest ih =>
    obtain ⟨ek, ev⟩ := e
    intro x hx
    by_cases he : ek = k
    · simp only [setEntry, if_pos he, List.map_cons, List.mem_cons] at hx ⊢
      rcases hx with hx | hx
      · exact Or.inr (Or.inl hx)
      · exact Or.inr (Or.inr hx)
    · simp only [setEntry, if_neg he, List.map_cons, List.mem_cons] at hx ⊢
      rcases hx with hx | hx
      · exact Or.inr (Or.inl hx)
      · rcases ih x hx with hx2 | hx2
        · exact Or.inl hx2
        · exact Or.inr (Or.inr hx2)

theorem keys_setEntry_nodup (k : String) (v : β) (m : List (String × β))
    (hnd : (m.map Prod.fst).Nodup) : ((setEntry k v m).map Prod.fst).Nodup := by
  induction m with
  | nil => simp [setEntry]
  | cons e rest ih =>
    obtain ⟨ek, ev⟩ := e
    simp only [List.map_cons, List.nodup_cons] at hnd
    by_cases he : ek = k
    · simp only [setEntry, if_pos he, List.map_cons, List.nodup_cons]
      exact hnd
    · simp only [setEntry, if_neg he, List.map_cons, List.nodup_cons]
      refine ⟨?_, ih hnd.2⟩
      intro hmem
      rcases keys_setEntry_subset k v rest ek hmem with hx | hx
      · exact he hx
      · exact hnd.1 hx

theorem keys_dropEntry_sublist (k : String) (m : List (String × β)) :
    ((dropEntry k m).map Prod.fst).Sublist (m.map Prod.fst) := by
  induction m with
  | nil => simp [dropEntry]
  | cons e rest ih =>
    obtain ⟨ek, ev⟩ := e
    by_cases he : ek = k
    · simp only [dropEntry, if_pos he, List.map_cons]
      exact List.sublist_cons_self _ _
    · simp only [dropEntry, if_neg he, List.map_cons]
      exact ih.cons₂ ek

/-- The fan-out loop keeps exactly the free channels, each now holding
the published comment. -/
theorem sendAll_eq (c : Comment) (l : List Sub) :
    sendAll c l
      = (l.filter fun s => s.buf.isNone).map fun s => ⟨s.chanId, some c⟩ := by
  induction l with
  | nil => rfl
  | cons ch rest ih =>
    by_cases hb : ch.buf = none
    · have hb' : (fun s : Sub => s.buf.isNone) ch = true := by
        simp [hb]
      simp only [sendAll, if_pos hb, ih]
      rw [@List.filter_cons_of_pos Sub (fun s => s.buf.isNone) ch rest hb',
        List.map_cons]
    · have hb' : ¬ (fun s : Sub => s.buf.isNone) ch = true := by
        rcases hch : ch.buf with _ | v
        · exact absurd hch hb
        · simp [hch]
      simp only [sendAll, if_neg hb, ih]
      rw [@List.filter_cons_of_neg Sub (fun s => s.buf.isNone) ch rest hb']

/-- With exactly one matching channel, the watcher's removal loop
(resolver.go:346-353) removes precisely it, preserving the others in
order. -/
theorem removeFirstChan_eq_filter (id : Nat) (l : List Sub)
    (h : (l.filter fun s => decide (s.chanId = id)).length = 1) :
    removeFirstChan id l = l.filter fun s => !decide (s.chanId = id) := by
  induction l with
  | nil => rfl
  | cons ch rest ih =>
    by_cases hc : ch.chanId = id
    · rw [List.filter_cons_of_pos (by simp [hc])] at h
      simp only [List.length_cons] at h
      have hrest : (rest.filter fun s => decide (s.chanId = id)) = [] :=
        List.length_eq_zero.1 (by omega)
      have hfil : rest.filter (fun s => !decide (s.chanId = id)) = rest := by
        rw [List.filter_eq_self]
        intro s hs
        by_cases hsid : s.chanId = id
        · exact absurd (hrest ▸ List.mem_filter.2 ⟨hs, by simp [hsid]⟩)
            (List.not_mem_nil s)
        · simp [hsid]
      rw [show removeFirstChan id (ch :: rest) = rest from by
          simp only [removeFirstChan, if_pos hc],
        List.filter_cons_of_neg (by simp [hc]), hfil]
    · rw [List.filter_cons_of_neg (by simp [hc])] at h
      rw [show removeFirstChan id (ch :: rest) = ch :: removeFirstChan id rest from by
          simp only [removeFirstChan, if_neg hc],
        List.filter_cons_of_pos (by simp [hc]), ih h]

/-- Effect of the notification block on the published post's channel
slice: exactly the free channels remain, in order, each now holding the
comment; full channels are gone from the registry. -/
theorem publish_chansOf (reg : Registry) (postID : String) (c : Comment)
    (hnd : (reg.map Prod.fst).Nodup) :
    chansOf (publish reg postID c) postID
      = ((chansOf reg postID).filter fun s => s.buf.isNone).map
          fun s => ⟨s.chanId, some c⟩ := by
  rcases hlk : lookupKey postID reg with _ | channels
  · simp only [publish, hlk, chansOf, Option.getD_none, List.filter_nil,
      List.map_nil]
  · simp only [publish, hlk, chansOf, Option.getD_some]
    by_cases hemp : (sendAll c channels).isEmpty
    · rw [if_pos hemp, lookupKey_dropEntry_self postID reg hnd]
      have : sendAll c channels = [] := List.isEmpty_iff.1 hemp
      rw [sendAll_eq] at this
      simp only [Option.getD_none, this.symm, sendAll_eq]
    · rw [if_neg hemp, lookupKey_setEntry_self, Option.getD_some, sendAll_eq]

/-- The notification block leaves every other post's channel slice
untouched. -/
theorem publish_chansOf_ne (reg : Registry) (postID : String) (c : Comment)
    (p : String) (hp : p ≠ postID) :
    chansOf (publish reg postID c) p = chansOf reg p := by
  rcases hlk : lookupKey postID reg with _ | channels
  · simp only [publish, hlk]
  · simp only [publish, hlk]
    by_cases hemp : (sendAll c channels).isEmpty
    · rw [if_pos hemp]
      simp only [chansOf, lookupKey_dropEntry_ne postID p reg hp]
    · rw [if_neg hemp]
      simp only [chansOf, lookupKey_setEntry_ne postID p _ reg hp]

/-- Effect of the watcher's deregistration on the cancelled post's
channel slice, when the channel occurs there exactly once: precisely that
channel is removed, the others keep their order. -/
theorem unsubscribe_chansOf (reg : Registry) (postID : String) (id : Nat)
    (hnd : (reg.map Prod.fst).Nodup)
    (hcount : ((chansOf reg postID).filter fun s => decide (s.chanId = id)).length
      = 1) :
    chansOf (unsubscribe reg postID id) postID
      = (chansOf reg postID).filter fun s => !decide (s.chanId = id) := by
  simp only [unsubscribe]
  rw [show (lookupKey postID reg).getD [] = chansOf reg postID from rfl,
    removeFirstChan_eq_filter id _ hcount]
  by_cases hemp : ((chansOf reg postID).filter fun s => !decide (s.chanId = id)).isEmpty
  · rw [if_pos hemp]
    simp only [chansOf, lookupKey_dropEntry_self postID reg hnd, Option.getD_none]
    exact (List.isEmpty_iff.1 hemp).symm
  · rw [if_neg hemp]
    simp only [chansOf, lookupKey_setEntry_self, Option.getD_some]

/-- The watcher's deregistration leaves every other post's channel slice
untouched. -/
theorem unsubscribe_chansOf_ne (reg : Registry) (postID : String) (id : Nat)
    (p : String) (hp : p ≠ postID) :
    chansOf (unsubscribe reg postID id) p = chansOf reg p := by
  simp only [unsubscribe]
  by_cases hemp : (removeFirstChan id ((lookupKey postID reg).getD [])).isEmpty
  · rw [if_pos hemp]
    simp only [chansOf, lookupKey_dropEntry_ne postID p reg hp]
  · rw [if_neg hemp]
    simp only [chansOf, lookupKey_setEntry_ne postID p _ reg hp]

/-- Deregistration preserves uniqueness of the registry's keys. -/
theorem unsubscribe_keys_nodup (reg : Registry) (postID : String) (id : Nat)
    (hnd : (reg.map Prod.fst).Nodup) :
    ((unsubscribe reg postID id).map Prod.fst).Nodup := by
  simp only [unsubscribe]
  by_cases hemp : (removeFirstChan id ((lookupKey postID reg).getD [])).isEmpty
  · rw [if_pos hemp]
    exact List.Nodup.sublist (keys_dropEntry_sublist postID reg) hnd
  · rw [if_neg hemp]
    exact keys_setEntry_nodup postID _ reg hnd

/-- C1 counterexample: with two channels registered under `"p1"`, one full
and one free, publishing removes the full channel from the registry
(resolver.go:311-321 rebuilds the slice keeping only channels whose send
succeeded), so the set of registered channels is NOT unchanged and the
full channel cannot receive later publishes. -/
theorem c1_counterexample :
    publish [("p1", [⟨0, some ⟨"old", "p1", none, "u", "x", 1⟩⟩, ⟨1, none⟩])]
        "p1" ⟨"new", "p1", none, "u", "y", 2⟩
      = [("p1", [⟨1, some ⟨"new", "p1", none, "u", "y", 2⟩⟩])] ∧
    0 ∈ (chansOf [("p1", [⟨0, some ⟨"old", "p1", none, "u", "x", 1⟩⟩, ⟨1, none⟩])]
        "p1").map Sub.chanId ∧
    0 ∉ (chansOf
        (publish [("p1", [⟨0, some ⟨"old", "p1", none, "u", "x", 1⟩⟩, ⟨1, none⟩])]
          "p1" ⟨"new", "p1", none, "u", "y", 2⟩) "p1").map Sub.chanId := by
  refine ⟨rfl, by decide, by decide⟩

/-- C1 (amended): `Publish` never blocks (it is a total function of the
registry) and a full channel is skipped for the publish — it does not
receive the comment — but it is also removed from the registry: after the
publish exactly the previously-free channels remain registered under the
post, in order, each holding the published comment, and channel slices of
other posts are unchanged.  A subscriber whose buffer was full therefore
does not remain registered and receives no later publishes on that
registration. -/
theorem c1_publish_full_channel (reg : Registry) (postID : String) (c : Comment)
    (hnd : (reg.map Prod.fst).Nodup) :
    (chansOf (publish reg postID c) postID
      = ((chansOf reg postID).filter fun s => s.buf.isNone).map
          fun s => ⟨s.chanId, some c⟩) ∧
    (∀ s' ∈ chansOf (publish reg postID c) postID, s'.buf = some c ∧
      s'.chanId ∈ ((chansOf reg postID).filter fun s => s.buf.isNone).map
        Sub.chanId) ∧
    (∀ s ∈ chansOf reg postID, s.buf = none →
      (⟨s.chanId, some c⟩ : Sub) ∈ chansOf (publish reg postID c) postID) ∧
    (∀ p, p ≠ postID → chansOf (publish reg postID c) p = chansOf reg p) := by
  refine ⟨publish_chansOf reg postID c hnd, ?_, ?_, ?_⟩
  · intro s' hs'
    rw [publish_chansOf reg postID c hnd] at hs'
    obtain ⟨s, hsmem, hseq⟩ := List.mem_map.1 hs'
    constructor
    · rw [← hseq]
    · rw [← hseq]
      show s.chanId ∈ _
      exact List.mem_map_of_mem Sub.chanId hsmem
  · intro s hs hfree
    rw [publish_chansOf reg postID c hnd]
    exact List.mem_map_of_mem _ (List.mem_filter.2 ⟨hs, by simp [hfree]⟩)
  · intro p hp
    exact publish_chansOf_ne reg postID c p hp

/-- Witness for C1's amended theorem at the two-channel registry: the free
channel stays registered holding the comment; only channel 1 remains. -/
theorem c1_publish_full_channel_witness :
    chansOf (publish [("p1", [⟨0, some ⟨"old", "p1", none, "u", "x", 1⟩⟩, ⟨1, none⟩])]
        "p1" ⟨"new", "p1", none, "u", "y", 2⟩) "p1"
      = ((chansOf [("p1", [⟨0, some ⟨"old", "p1", none, "u", "x", 1⟩⟩, ⟨1, none⟩])]
            "p1").filter fun s => s.buf.isNone).map
          fun s => ⟨s.chanId, some ⟨"new", "p1", none, "u", "y", 2⟩⟩ :=
  (c1_publish_full_channel
    [("p1", [⟨0, some ⟨"old", "p1", none, "u", "x", 1⟩⟩, ⟨1, none⟩])] "p1"
    ⟨"new", "p1", none, "u", "y", 2⟩ (by decide)).1

/-- C8: when a subscription's cancellation fires, the watcher removes
exactly that channel from the post's slice (the others keep their order),
removes the post's registry entry when it was the last channel, leaves
other posts untouched, and a subsequent publish on the post delivers to no
channel with the removed identity — the closed channel is unreachable, so
no send-on-closed panic can occur. -/
theorem c8_unsubscribe_lifecycle (reg : Registry) (postID : String) (id : Nat)
    (hnd : (reg.map Prod.fst).Nodup)
    (hcount : ((chansOf reg postID).filter fun s => decide (s.chanId = id)).length
      = 1) :
    (chansOf (unsubscribe reg postID id) postID
      = (chansOf reg postID).filter fun s => !decide (s.chanId = id)) ∧
    (∀ p, p ≠ postID → chansOf (unsubscribe reg postID id) p = chansOf reg p) ∧
    ((chansOf reg postID).length = 1 →
      lookupKey postID (unsubscribe reg postID id) = none) ∧
    (∀ c, id ∉ (chansOf (publish (unsubscribe reg postID id) postID c)
        postID).map Sub.chanId) := by
  have hmain := unsubscribe_chansOf reg postID id hnd hcount
  refine ⟨hmain, fun p hp => unsubscribe_chansOf_ne reg postID id p hp, ?_, ?_⟩
  · intro hlen1
    have hsum : (chansOf reg postID).length
        = ((chansOf reg postID).filter fun s => decide (s.chanId = id)).length
          + ((chansOf reg postID).filter fun s => !decide (s.chanId = id)).length :=
      List.length_eq_length_filter_add _
    have hrem0 : ((chansOf reg postID).filter
        fun s => !decide (s.chanId = id)).length = 0 := by
      omega
    have hrem : ((chansOf reg postID).filter fun s => !decide (s.chanId = id)) = [] :=
      List.length_eq_zero.1 hrem0
    simp only [unsubscribe,
      show (lookupKey postID reg).getD [] = chansOf reg postID from rfl,
      removeFirstChan_eq_filter id _ hcount, hrem]
    rw [if_pos List.isEmpty_nil]
    exact lookupKey_dropEntry_self postID reg hnd
  · intro c hidmem
    have hnd' := unsubscribe_keys_nodup reg postID id hnd
    rw [publish_chansOf (unsubscribe reg postID id) postID c hnd', hmain] at hidmem
    obtain ⟨s, hsmem, hsid⟩ := List.mem_map.1 hidmem
    obtain ⟨s2, hs2mem, hs2eq⟩ := List.mem_map.1 hsmem
    have h1 : s2 ∈ (chansOf reg postID).filter fun s => !decide (s.chanId = id) :=
      (List.mem_filter.1 hs2mem).1
    have h2 : (!decide (s2.chanId = id)) = true := (List.mem_filter.1 h1).2
    have h3 : s2.chanId = id := by
      rw [← hs2eq] at hsid
      exact hsid
    simp [h3] at h2

/-- Witness for C8 at a one-channel registry: cancelling the only
subscriber empties the slice, deletes the entry, and a follow-up publish
cannot reach the closed channel. -/
theorem c8_unsubscribe_lifecycle_witness :
    (chansOf (unsubscribe [("p1", [⟨0, none⟩])] "p1" 0) "p1"
      = (chansOf [("p1", [⟨0, none⟩])] "p1").filter fun s => !decide (s.chanId = 0)) ∧
    (∀ p, p ≠ "p1" → chansOf (unsubscribe [("p1", [⟨0, none⟩])] "p1" 0) p
      = chansOf [("p1", [⟨0, none⟩])] p) ∧
    ((chansOf [("p1", [⟨0, none⟩])] "p1").length = 1 →
      lookupKey "p1" (unsubscribe [("p1", [⟨0, none⟩])] "p1" 0) = none) ∧
    (∀ c, 0 ∉ (chansOf (publish (unsubscribe [("p1", [⟨0, none⟩])] "p1" 0) "p1" c)
        "p1").map Sub.chanId) :=
  c8_unsubscribe_lifecycle [("p1", [⟨0, none⟩])] "p1" 0 (by decide) (by decide)
